import Mathlib

/-!
Verification of the Destiny 2 power-progression Monte Carlo simulator
(`d2montecarlo.py`) against its natural-language specification.

The script is embedded shallowly:

* Python integers become `ℤ`; Python `//` (floor division) becomes `Int.fdiv`.
* `random.random()` draws (uniform on `[0,1)`) become `ℚ` values supplied by
  an explicit oracle; `random.randrange(8)` draws become `Fin 8` values.
  Each loop iteration ("tick") consumes one `TickDraw` record holding the
  uniform draw and the two slot draws it may use (the bonus-slot draw is
  only consulted when the bonus event triggers, matching the source where
  that call to `randrange` only happens inside the `if`).
* The unbounded `while` loop becomes a fuel-indexed recursion returning
  `Option`: `none` means the loop has not finished within the given fuel
  (or that the rule lookup failed, which in Python raises `IndexError`).
* `statistics.mean/median/stdev/quantiles` are embedded over `ℚ`; for the
  standard deviation we record the sample variance (the Python value is its
  square root), which has exactly the same definedness condition (n ≥ 2).
-/

/-- One tick's worth of random draws: the uniform `[0,1)` draw compared
against `prime_chance`, the slot drawn for a bonus (prime) drop, and the
slot drawn for the regular drop. -/
structure TickDraw where
  r : ℚ
  prime_slot : Fin 8
  reg_slot : Fin 8
  deriving DecidableEq

/-- The parameters of `run_simulation` in the source. -/
structure SimParams where
  power_cap : ℤ
  starting_power : ℤ
  target_power : ℤ
  prime_chance : ℚ
  progression_rules : List (ℤ × ℤ × ℤ)
  deriving DecidableEq

/-- The mutable loop state of `run_simulation`. -/
structure SimState where
  activity_count : ℕ
  prime_count : ℕ
  gear : List ℤ
  deriving DecidableEq

/-- Source line 57/72: `account_power = sum(gear) // 8` (Python floor
division). -/
def account_power (gear : List ℤ) : ℤ :=
  Int.fdiv gear.sum 8

/-- Source lines 66/69: `gear[slot] = min(max(candidate, gear[slot]), power_cap)`
where `candidate` is `account_power + bump`. -/
def bump_slot (power_cap candidate : ℤ) (slot : ℕ) (gear : List ℤ) : List ℤ :=
  gear.set slot (min (max candidate (gear.getD slot 0)) power_cap)

/-- The `for threshold, power_bump, prime_bump in progression_rules` loop of
`get_power_bumps` (source lines 22-24): first entry whose threshold is ≤ the
account power wins. -/
def scan_rules (account_power : ℤ) : List (ℤ × ℤ × ℤ) → Option (ℤ × ℤ)
  | [] => none
  | (threshold, power_bump, prime_bump) :: rest =>
    if threshold ≤ account_power then some (power_bump, prime_bump)
    else scan_rules account_power rest

/-- Source lines 8-26. Returns `none` exactly when the loop finds no match
and `progression_rules[-1]` raises `IndexError` (empty list); otherwise the
first matching entry's bumps, falling back to the last entry's bumps. -/
def get_power_bumps (account_power : ℤ) (progression_rules : List (ℤ × ℤ × ℤ)) :
    Option (ℤ × ℤ) :=
  match scan_rules account_power progression_rules with
  | some bumps => some bumps
  | none => progression_rules.getLast?.map (fun rule => (rule.2.1, rule.2.2))

/-- One iteration of the `while` loop of `run_simulation` (source lines
59-72): increment `activity_count`, look up the bumps at the tick-start
account power, apply the bonus (prime) drop first when the uniform draw `r`
satisfies `r ≤ prime_chance`, then unconditionally apply the regular drop.
`none` models the `IndexError` from a failed rule lookup. -/
def simTick (p : SimParams) (d : TickDraw) (s : SimState) : Option SimState :=
  match get_power_bumps (account_power s.gear) p.progression_rules with
  | none => none
  | some (power_bump, prime_bump) =>
    some
      { activity_count := s.activity_count + 1
        prime_count :=
          if d.r ≤ p.prime_chance then s.prime_count + 1 else s.prime_count
        gear :=
          bump_slot p.power_cap (account_power s.gear + power_bump) d.reg_slot.val
            (if d.r ≤ p.prime_chance then
              bump_slot p.power_cap (account_power s.gear + prime_bump)
                d.prime_slot.val s.gear
            else s.gear) }

/-- The `while account_power < target_power` loop (source lines 59-72),
indexed by fuel. `oracle n` supplies the draws of the tick whose (0-based)
index is `n`; since `activity_count` counts completed ticks, the state's
`activity_count` is that index. `none` means the loop has not terminated
within `fuel` ticks (or a rule lookup failed). -/
def runSimAux (p : SimParams) (oracle : ℕ → TickDraw) : ℕ → SimState → Option SimState
  | 0, s => if account_power s.gear < p.target_power then none else some s
  | fuel + 1, s =>
    if account_power s.gear < p.target_power then
      match simTick p (oracle s.activity_count) s with
      | none => none
      | some s' => runSimAux p oracle fuel s'
    else some s

/-- Source lines 54-57: `activity_count = 0; prime_count = 0;
gear = [starting_power for _ in range(8)]`. -/
def initState (p : SimParams) : SimState :=
  { activity_count := 0, prime_count := 0, gear := List.replicate 8 p.starting_power }

/-- Source lines 29-74: `run_simulation`, returning the tuple
`(activity_count, prime_count, gear)` when the loop finishes within `fuel`
ticks. -/
def run_simulation (p : SimParams) (oracle : ℕ → TickDraw) (fuel : ℕ) :
    Option (ℕ × ℕ × List ℤ) :=
  (runSimAux p oracle fuel (initState p)).map fun s =>
    (s.activity_count, s.prime_count, s.gear)

/-- Source lines 46-52: the default progression rules used when
`progression_rules is None`. -/
def default_rules : List (ℤ × ℤ × ℤ) :=
  [(400, 0, 3), (297, 3, 4), (196, 4, 5), (0, 6, 7)]

example : account_power (List.replicate 8 400) = 400 := by decide
example : get_power_bumps 400 default_rules = some (0, 3) := by decide
example : get_power_bumps 196 default_rules = some (4, 5) := by decide
example : get_power_bumps (-5) default_rules = some (6, 7) := by decide
example : get_power_bumps 7 [] = none := by decide

/-- Insertion step of the sort used to embed Python's `sorted(data)` (any
correct sort yields the same list). -/
def insert_sorted (x : ℚ) : List ℚ → List ℚ
  | [] => [x]
  | y :: ys => if x ≤ y then x :: y :: ys else y :: insert_sorted x ys

/-- Sorted copy of the data, as `sorted(data)` inside `statistics`. -/
def sort_data (data : List ℚ) : List ℚ :=
  data.foldr insert_sorted []

/-- Embedding of `statistics.mean`: defined only on non-empty data
(Python raises `StatisticsError` on empty input). -/
def stat_mean (data : List ℚ) : Option ℚ :=
  if data.length = 0 then none else some (data.sum / data.length)

/-- Embedding of `statistics.median`: middle element of the sorted data for
odd length, average of the two middle elements for even length; undefined
on empty data. -/
def stat_median (data : List ℚ) : Option ℚ :=
  if data.length = 0 then none
  else
    let n := data.length
    let s := sort_data data
    if n % 2 = 1 then some (s.getD (n / 2) 0)
    else some ((s.getD (n / 2 - 1) 0 + s.getD (n / 2) 0) / 2)

/-- Embedding of `statistics.stdev`, which requires at least two data
points (else `StatisticsError`). We record the sample variance
`Σ (x - mean)² / (n - 1)`; Python reports its square root, an order
isomorphism, with the identical definedness condition. -/
def stat_stdev_sq (data : List ℚ) : Option ℚ :=
  if data.length < 2 then none
  else
    let m := data.sum / data.length
    some ((data.map fun x => (x - m) ^ 2).sum / ((data.length : ℚ) - 1))

/-- Embedding of `statistics.quantiles(data, n=4)` with the default
`method='exclusive'`, which requires at least two data points: for
`i = 1, 2, 3` let `j, delta = divmod(i * (ld + 1), 4)` with `j` clamped to
`[1, ld - 1]`, interpolating `(data[j-1] * (4 - delta) + data[j] * delta) / 4`. -/
def stat_quantiles4 (data : List ℚ) : Option (ℚ × ℚ × ℚ) :=
  if data.length < 2 then none
  else
    let ld := data.length
    let m := ld + 1
    let s := sort_data data
    let q := fun (i : ℕ) =>
      let j0 := i * m / 4
      let delta := i * m % 4
      let j := if j0 < 1 then 1 else if ld - 1 < j0 then ld - 1 else j0
      (s.getD (j - 1) 0 * ((4 : ℚ) - (delta : ℚ)) + s.getD j 0 * (delta : ℚ)) / 4
    some (q 1, q 2, q 3)

/-- The statistics record built by `run_scenario_analysis` (source lines
91-103). `activity_stdev_sq` holds the square of the Python
`activity_stdev` field. -/
structure ScenarioStats where
  name : String
  activity_mean : ℚ
  activity_median : ℚ
  activity_stdev_sq : ℚ
  activity_min : ℚ
  activity_max : ℚ
  activity_25th : ℚ
  activity_75th : ℚ
  prime_mean : ℚ
  prime_median : ℚ
  prime_rate : ℚ
  deriving DecidableEq

/-- The collection loop of `run_scenario_analysis` (source lines 84-89):
run `run_simulation` once per iteration with that run's own draw stream
`oracles i`, collecting `(activities, primes)` pairs in order. `none` if
any run fails to finish within its fuel. -/
def run_batch (p : SimParams) (oracles : ℕ → ℕ → TickDraw) (fuel : ℕ) :
    ℕ → ℕ → Option (List (ℕ × ℕ))
  | _, 0 => some []
  | i, n + 1 =>
    (run_simulation p (oracles i) fuel).bind fun r =>
      (run_batch p oracles fuel (i + 1) n).map fun rest => (r.1, r.2.1) :: rest

/-- Source lines 77-103: `run_scenario_analysis`. The statistics are bound
in the evaluation order of the Python dict literal, so the first undefined
statistic (e.g. `stdev` for fewer than two data points, or the terminal
`sum(prime_counts) / sum(activity_counts)` on a zero denominator, a
`ZeroDivisionError`) makes the whole result `none`. -/
def run_scenario_analysis (N : ℕ) (scenario_name : String) (p : SimParams)
    (oracles : ℕ → ℕ → TickDraw) (fuel : ℕ) : Option ScenarioStats :=
  (run_batch p oracles fuel 0 N).bind fun results =>
    let activity_counts : List ℚ := results.map fun r => (r.1 : ℚ)
    let prime_counts : List ℚ := results.map fun r => (r.2 : ℚ)
    (stat_mean activity_counts).bind fun a_mean =>
    (stat_median activity_counts).bind fun a_median =>
    (stat_stdev_sq activity_counts).bind fun a_sdsq =>
    activity_counts.min?.bind fun a_min =>
    activity_counts.max?.bind fun a_max =>
    (stat_quantiles4 activity_counts).bind fun a_q =>
    (stat_mean prime_counts).bind fun p_mean =>
    (stat_median prime_counts).bind fun p_median =>
    if activity_counts.sum = 0 then none
    else
      some
        { name := scenario_name
          activity_mean := a_mean
          activity_median := a_median
          activity_stdev_sq := a_sdsq
          activity_min := a_min
          activity_max := a_max
          activity_25th := a_q.1
          activity_75th := a_q.2.2
          prime_mean := p_mean
          prime_median := p_median
          prime_rate := prime_counts.sum / activity_counts.sum }

/-- Source line 126: `power_cap = 550`. -/
def power_cap_config : ℤ := 550

/-- Source line 129: `prime_chance = 0.075`. The Python value is the
nearest binary double to 0.075; only its order against the draws matters,
so the exact rational stands in for it. -/
def prime_chance_config : ℚ := 0.075

/-- Source line 125: `N = 10000`. -/
def N_config : ℕ := 10000

/-- Source lines 148-154: the rule table of the first built-in scenario. -/
def original_rules : List (ℤ × ℤ × ℤ) :=
  [(450, 0, 2), (400, 0, 3), (297, 3, 4), (196, 4, 5), (0, 6, 7)]

/-- Source lines 155-161: the rule table of the second built-in scenario. -/
def modified_rules : List (ℤ × ℤ × ℤ) :=
  [(450, 1, 2), (400, 1, 3), (297, 3, 4), (196, 4, 5), (0, 6, 7)]

/-- Source lines 131-145: the module-level validation of the CLI arguments,
in source order. Each failing check prints its message and exits with
status 1, modelled as `Except.error` carrying the message. -/
def validate_config (starting_power target_power : ℤ) : Except String Unit :=
  if starting_power < 10 then
    .error ("Error: starting_power (" ++ toString starting_power ++
      ") must be at least 10")
  else if power_cap_config ≤ starting_power then
    .error ("Error: starting_power (" ++ toString starting_power ++
      ") must be less than power_cap (" ++ toString power_cap_config ++ ")")
  else if target_power ≤ starting_power then
    .error ("Error: target_power (" ++ toString target_power ++
      ") must be greater than starting_power (" ++ toString starting_power ++ ")")
  else if power_cap_config < target_power then
    .error ("Error: target_power (" ++ toString target_power ++
      ") must be less than or equal to power_cap (" ++ toString power_cap_config ++ ")")
  else .ok ()

/-- Source lines 106-171: the module-level script flow that matters for the
error-handling claims: validate the CLI arguments, and only on success run
the scenario analyses (each scenario with its own family of draw streams). -/
def cli_main (starting_power target_power : ℤ) (oracles : ℕ → ℕ → ℕ → TickDraw)
    (fuel : ℕ) : Except String (List (Option ScenarioStats)) :=
  match validate_config starting_power target_power with
  | .error e => .error e
  | .ok _ =>
    .ok
      [run_scenario_analysis N_config "Original (0 power bump at 400+)"
          { power_cap := power_cap_config, starting_power := starting_power,
            target_power := target_power, prime_chance := prime_chance_config,
            progression_rules := original_rules } (oracles 0) fuel,
        run_scenario_analysis N_config "Modified (+1 power bump at 400+)"
          { power_cap := power_cap_config, starting_power := starting_power,
            target_power := target_power, prime_chance := prime_chance_config,
            progression_rules := modified_rules } (oracles 1) fuel]

/-- Stated from the spec's words for the rule-table lookup (§4.1): scan the
rules in order, return the bumps of the first entry whose threshold is ≤
the account power, and fall back to the last entry's bumps when none
matches. Compared with `get_power_bumps` in the C4 theorem. -/
def lookup_spec (a : ℤ) (rules : List (ℤ × ℤ × ℤ)) (h : rules ≠ []) : ℤ × ℤ :=
  match rules.find? (fun rule => decide (rule.1 ≤ a)) with
  | some rule => (rule.2.1, rule.2.2)
  | none => ((rules.getLast h).2.1, (rules.getLast h).2.2)

/-- Index of a minimal element of a list (0 on the empty list). Used to
build an explicit draw sequence that makes every tick progress. -/
def idxMin : List ℤ → ℕ
  | [] => 0
  | [_] => 0
  | x :: y :: ys =>
    let j := idxMin (y :: ys)
    if x ≤ (y :: ys).getD j 0 then 0 else j + 1

/-- A draw that always aims both drops at a minimal gear slot (the uniform
draw 1 is an arbitrary fixed value). -/
def greedyDraw (s : SimState) : TickDraw :=
  ⟨1, ⟨idxMin s.gear % 8, Nat.mod_lt _ (by norm_num)⟩,
    ⟨idxMin s.gear % 8, Nat.mod_lt _ (by norm_num)⟩⟩

/-- The state trajectory of the simulation loop when fed greedy draws; it
freezes once the loop guard fails (or a rule lookup fails). -/
def greedyTraj (p : SimParams) : ℕ → SimState
  | 0 => initState p
  | n + 1 =>
    let s := greedyTraj p n
    if account_power s.gear < p.target_power then (simTick p (greedyDraw s) s).getD s
    else s

/-- The draw stream that realizes the greedy trajectory. -/
def greedyOracle (p : SimParams) (n : ℕ) : TickDraw :=
  greedyDraw (greedyTraj p n)

/-! ### List helper lemmas -/

theorem getD_cons_succ (x : ℤ) (xs : List ℤ) (n : ℕ) :
    (x :: xs).getD (n + 1) 0 = xs.getD n 0 := rfl

theorem getD_set_self : ∀ (l : List ℤ) (m : ℕ) (v : ℤ), m < l.length →
    (l.set m v).getD m 0 = v
  | [], m, v, h => absurd h (by simp)
  | _ :: _, 0, _, _ => rfl
  | _ :: xs, m + 1, v, h => getD_set_self xs m v (by simpa using h)

theorem getD_set_ne : ∀ (l : List ℤ) (m i : ℕ) (v : ℤ), i ≠ m →
    (l.set m v).getD i 0 = l.getD i 0
  | [], _, _, _, _ => by simp [List.getD]
  | _ :: _, 0, 0, _, h => absurd rfl h
  | _ :: _, 0, _ + 1, _, _ => rfl
  | _ :: _, _ + 1, 0, _, _ => rfl
  | _ :: xs, m + 1, i + 1, v, h =>
    getD_set_ne xs m i v (fun hh => h (by omega))

theorem set_of_length_le : ∀ (l : List ℤ) (m : ℕ) (v : ℤ), l.length ≤ m →
    l.set m v = l
  | [], _, _, _ => rfl
  | _ :: _, 0, _, h => absurd h (by simp)
  | x :: xs, m + 1, v, h => by
    simpa using set_of_length_le xs m v (by simpa using h)

theorem sum_set_eq : ∀ (l : List ℤ) (m : ℕ) (v : ℤ), m < l.length →
    (l.set m v).sum = l.sum - l.getD m 0 + v
  | [], m, v, h => absurd h (by simp)
  | x :: xs, 0, v, _ => by simp [List.getD]; ring
  | x :: xs, m + 1, v, h => by
    have ih := sum_set_eq xs m v (by simpa using h)
    simp [List.sum_cons, getD_cons_succ, ih]
    ring

theorem mem_set_cases : ∀ (l : List ℤ) (m : ℕ) (v x : ℤ), x ∈ l.set m v →
    (x = v ∧ m < l.length) ∨ x ∈ l
  | [], _, _, _, h => by simp at h
  | y :: ys, 0, v, x, h => by
    rcases List.mem_cons.mp h with h | h
    · exact Or.inl ⟨h, by simp⟩
    · exact Or.inr (List.mem_cons_of_mem _ h)
  | y :: ys, m + 1, v, x, h => by
    rcases List.mem_cons.mp h with h | h
    · exact Or.inr (h ▸ List.mem_cons_self _ _)
    · rcases mem_set_cases ys m v x h with ⟨h1, h2⟩ | h1
      · exact Or.inl ⟨h1, by simpa using h2⟩
      · exact Or.inr (List.mem_cons_of_mem _ h1)

theorem getD_mem : ∀ (l : List ℤ) (i : ℕ), i < l.length → l.getD i 0 ∈ l
  | [], _, h => absurd h (by simp)
  | x :: xs, 0, _ => List.mem_cons_self _ _
  | x :: xs, i + 1, h =>
    List.mem_cons_of_mem _ (getD_mem xs i (by simpa using h))

theorem mul_length_le_sum : ∀ (l : List ℤ) (m : ℤ), (∀ x ∈ l, m ≤ x) →
    m * l.length ≤ l.sum
  | [], m, _ => by simp
  | x :: xs, m, h => by
    have hx : m ≤ x := h x (List.mem_cons_self _ _)
    have ih := mul_length_le_sum xs m (fun y hy => h y (List.mem_cons_of_mem _ hy))
    simp only [List.sum_cons, List.length_cons]
    push_cast
    nlinarith

theorem idxMin_lt_length : ∀ (l : List ℤ), l ≠ [] → idxMin l < l.length
  | [], h => absurd rfl h
  | [_], _ => by simp [idxMin]
  | x :: y :: ys, _ => by
    have ih := idxMin_lt_length (y :: ys) (by simp)
    simp only [idxMin]
    split
    · simp
    · simpa using Nat.succ_lt_succ ih

theorem getD_idxMin_le : ∀ (l : List ℤ) (x : ℤ), x ∈ l → l.getD (idxMin l) 0 ≤ x
  | [], x, h => by simp at h
  | [a], x, h => by
    simp at h
    simp [idxMin, List.getD, h]
  | a :: b :: ys, x, h => by
    have ih := fun z hz => getD_idxMin_le (b :: ys) z hz
    simp only [idxMin]
    split
    · next hle =>
      rcases List.mem_cons.mp h with h | h
      · simpa [List.getD] using le_of_eq h.symm
      · exact le_trans (by simpa [List.getD] using hle) (ih x h)
    · next hlt =>
      rcases List.mem_cons.mp h with h | h
      · subst h
        rw [getD_cons_succ]
        exact le_of_lt (lt_of_not_le hlt)
      · rw [getD_cons_succ]
        exact ih x h

/-! ### Account power and slot update lemmas -/

theorem account_power_replicate (x : ℤ) : account_power (List.replicate 8 x) = x := by
  have : (List.replicate 8 x).sum = 8 * x := by
    simp [List.sum_replicate]
    ring
  rw [account_power, this, Int.fdiv_eq_ediv _ (by norm_num)]
  exact Int.mul_ediv_cancel_left x (by norm_num)

theorem le_account_power_of_mul_le (g : List ℤ) (m : ℤ) (h : m * 8 ≤ g.sum) :
    m ≤ account_power g := by
  rw [account_power, Int.fdiv_eq_ediv _ (by norm_num)]
  exact (Int.le_ediv_iff_mul_le (by norm_num)).mpr h

theorem lower_le_account_power (g : List ℤ) (m : ℤ) (hlen : g.length = 8)
    (h : ∀ x ∈ g, m ≤ x) : m ≤ account_power g := by
  apply le_account_power_of_mul_le
  have := mul_length_le_sum g m h
  rwa [hlen] at this

theorem target_le_account_power (g : List ℤ) (t : ℤ) (h : 8 * t ≤ g.sum) :
    t ≤ account_power g := by
  apply le_account_power_of_mul_le
  omega

/-- The gear invariant of the spec (§3): 8 slots, each within
`[starting_power, power_cap]`. -/
def GearInv (p : SimParams) (s : SimState) : Prop :=
  s.gear.length = 8 ∧ ∀ x ∈ s.gear, p.starting_power ≤ x ∧ x ≤ p.power_cap

theorem bump_slot_length (cap cand : ℤ) (m : ℕ) (g : List ℤ) :
    (bump_slot cap cand m g).length = g.length :=
  List.length_set g m _

theorem bump_slot_bounds (cap cand lo : ℤ) (m : ℕ) (g : List ℤ)
    (hg : ∀ x ∈ g, lo ≤ x ∧ x ≤ cap) :
    ∀ x ∈ bump_slot cap cand m g, lo ≤ x ∧ x ≤ cap := by
  intro x hx
  rcases mem_set_cases _ _ _ _ hx with ⟨hxv, hm⟩ | hx'
  · subst hxv
    have hold := hg _ (getD_mem g m hm)
    constructor
    · exact le_min (le_trans hold.1 (le_max_right _ _)) (le_trans hold.1 hold.2)
    · exact min_le_right _ _
  · exact hg x hx'

theorem bump_slot_pointwise (cap cand : ℤ) (m : ℕ) (g : List ℤ)
    (hcap : ∀ x ∈ g, x ≤ cap) :
    ∀ i, g.getD i 0 ≤ (bump_slot cap cand m g).getD i 0 := by
  intro i
  by_cases him : i = m
  · subst him
    by_cases hlen : i < g.length
    · rw [bump_slot, getD_set_self _ _ _ hlen]
      have hold := hcap _ (getD_mem g i hlen)
      exact le_min (le_max_right _ _) hold
    · rw [bump_slot, set_of_length_le _ _ _ (le_of_not_lt hlen)]
  · rw [bump_slot, getD_set_ne _ _ _ _ him]

theorem bump_slot_sum_le (cap cand : ℤ) (m : ℕ) (g : List ℤ)
    (hcap : ∀ x ∈ g, x ≤ cap) : g.sum ≤ (bump_slot cap cand m g).sum := by
  by_cases hlen : m < g.length
  · rw [bump_slot, sum_set_eq _ _ _ hlen]
    have := bump_slot_pointwise cap cand m g hcap m
    rw [bump_slot, getD_set_self _ _ _ hlen] at this
    omega
  · rw [bump_slot, set_of_length_le _ _ _ (le_of_not_lt hlen)]

theorem bump_slot_getD_strict (cap cand : ℤ) (m : ℕ) (g : List ℤ)
    (hlen : m < g.length) (h1 : g.getD m 0 < cand) (h2 : g.getD m 0 < cap) :
    g.getD m 0 + 1 ≤ (bump_slot cap cand m g).getD m 0 := by
  rw [bump_slot, getD_set_self _ _ _ hlen]
  have : g.getD m 0 < min (max cand (g.getD m 0)) cap :=
    lt_min (lt_of_lt_of_le h1 (le_max_left _ _)) h2
  omega

/-! ### Tick-level lemmas -/

theorem simTick_eq_some (p : SimParams) (d : TickDraw) (s s' : SimState)
    (h : simTick p d s = some s') :
    ∃ pb prb,
      get_power_bumps (account_power s.gear) p.progression_rules = some (pb, prb) ∧
      s' = { activity_count := s.activity_count + 1
             prime_count :=
               if d.r ≤ p.prime_chance then s.prime_count + 1 else s.prime_count
             gear :=
               bump_slot p.power_cap (account_power s.gear + pb) d.reg_slot.val
                 (if d.r ≤ p.prime_chance then
                   bump_slot p.power_cap (account_power s.gear + prb) d.prime_slot.val s.gear
                 else s.gear) } := by
  unfold simTick at h
  cases hb : get_power_bumps (account_power s.gear) p.progression_rules with
  | none =>
    rw [hb] at h
    exact absurd h (by simp)
  | some bumps =>
    obtain ⟨pb, prb⟩ := bumps
    rw [hb] at h
    exact ⟨pb, prb, rfl, (Option.some_injective _ h).symm⟩

theorem simTick_some_of_bumps (p : SimParams) (d : TickDraw) (s : SimState)
    (pb prb : ℤ)
    (hb : get_power_bumps (account_power s.gear) p.progression_rules = some (pb, prb)) :
    simTick p d s =
      some
        { activity_count := s.activity_count + 1
          prime_count :=
            if d.r ≤ p.prime_chance then s.prime_count + 1 else s.prime_count
          gear :=
            bump_slot p.power_cap (account_power s.gear + pb) d.reg_slot.val
              (if d.r ≤ p.prime_chance then
                bump_slot p.power_cap (account_power s.gear + prb) d.prime_slot.val s.gear
              else s.gear) } := by
  unfold simTick
  rw [hb]

theorem simTick_activity (p : SimParams) (d : TickDraw) (s s' : SimState)
    (h : simTick p d s = some s') : s'.activity_count = s.activity_count + 1 := by
  obtain ⟨pb, prb, _, hs⟩ := simTick_eq_some p d s s' h
  rw [hs]

theorem simTick_prime_bound (p : SimParams) (d : TickDraw) (s s' : SimState)
    (h : simTick p d s = some s') :
    s.prime_count ≤ s'.prime_count ∧ s'.prime_count ≤ s.prime_count + 1 := by
  obtain ⟨pb, prb, _, hs⟩ := simTick_eq_some p d s s' h
  rw [hs]
  by_cases hr : d.r ≤ p.prime_chance <;> simp [hr]

theorem simTick_prime_no_trigger (p : SimParams) (d : TickDraw) (s s' : SimState)
    (hr : ¬ d.r ≤ p.prime_chance) (h : simTick p d s = some s') :
    s'.prime_count = s.prime_count := by
  obtain ⟨pb, prb, _, hs⟩ := simTick_eq_some p d s s' h
  rw [hs]
  simp [hr]

theorem simTick_prime_trigger (p : SimParams) (d : TickDraw) (s s' : SimState)
    (hr : d.r ≤ p.prime_chance) (h : simTick p d s = some s') :
    s'.prime_count = s.prime_count + 1 := by
  obtain ⟨pb, prb, _, hs⟩ := simTick_eq_some p d s s' h
  rw [hs]
  simp [hr]

theorem simTick_gearInv (p : SimParams) (d : TickDraw) (s s' : SimState)
    (hsc : p.starting_power ≤ p.power_cap) (hinv : GearInv p s)
    (h : simTick p d s = some s') :
    GearInv p s' ∧ ∀ i, s.gear.getD i 0 ≤ s'.gear.getD i 0 := by
  obtain ⟨pb, prb, _, hs⟩ := simTick_eq_some p d s s' h
  obtain ⟨hlen, hbounds⟩ := hinv
  have hmid : ∀ x ∈ (if d.r ≤ p.prime_chance then
      bump_slot p.power_cap (account_power s.gear + prb) d.prime_slot.val s.gear
    else s.gear), p.starting_power ≤ x ∧ x ≤ p.power_cap := by
    split
    · exact bump_slot_bounds _ _ _ _ _ hbounds
    · exact hbounds
  have hmidlen : (if d.r ≤ p.prime_chance then
      bump_slot p.power_cap (account_power s.gear + prb) d.prime_slot.val s.gear
    else s.gear).length = 8 := by
    split
    · rw [bump_slot_length, hlen]
    · exact hlen
  have hmidpt : ∀ i, s.gear.getD i 0 ≤ (if d.r ≤ p.prime_chance then
      bump_slot p.power_cap (account_power s.gear + prb) d.prime_slot.val s.gear
    else s.gear).getD i 0 := by
    intro i
    split
    · exact bump_slot_pointwise _ _ _ _ (fun x hx => (hbounds x hx).2) i
    · exact le_refl _
  constructor
  · constructor
    · rw [hs]
      simpa [bump_slot_length] using hmidlen
    · rw [hs]
      exact bump_slot_bounds _ _ _ _ _ hmid
  · intro i
    rw [hs]
    exact le_trans (hmidpt i)
      (bump_slot_pointwise _ _ _ _ (fun x hx => (hmid x hx).2) i)

/-! ### Loop-level lemmas -/

theorem runSimAux_activity_mono (p : SimParams) (o : ℕ → TickDraw) :
    ∀ (fuel : ℕ) (s s' : SimState), runSimAux p o fuel s = some s' →
      s.activity_count ≤ s'.activity_count := by
  intro fuel
  induction fuel with
  | zero =>
    intro s s' h
    unfold runSimAux at h
    split at h
    · exact absurd h (by simp)
    · cases h
      exact le_refl _
  | succ n ih =>
    intro s s' h
    unfold runSimAux at h
    split at h
    · cases htick : simTick p (o s.activity_count) s with
      | none => rw [htick] at h; exact absurd h (by simp)
      | some s1 =>
        rw [htick] at h
        have h1 := simTick_activity _ _ _ _ htick
        have h2 := ih s1 s' h
        omega
    · cases h
      exact le_refl _

theorem runSimAux_prime_le_activity (p : SimParams) (o : ℕ → TickDraw) :
    ∀ (fuel : ℕ) (s s' : SimState), runSimAux p o fuel s = some s' →
      s.prime_count ≤ s.activity_count → s'.prime_count ≤ s'.activity_count := by
  intro fuel
  induction fuel with
  | zero =>
    intro s s' h hle
    unfold runSimAux at h
    split at h
    · exact absurd h (by simp)
    · cases h
      exact hle
  | succ n ih =>
    intro s s' h hle
    unfold runSimAux at h
    split at h
    · cases htick : simTick p (o s.activity_count) s with
      | none => rw [htick] at h; exact absurd h (by simp)
      | some s1 =>
        rw [htick] at h
        have h1 := simTick_activity _ _ _ _ htick
        have h2 := simTick_prime_bound _ _ _ _ htick
        exact ih s1 s' h (by omega)
    · cases h
      exact hle

theorem runSimAux_prime_const (p : SimParams) (o : ℕ → TickDraw)
    (hno : ∀ n, ¬ (o n).r ≤ p.prime_chance) :
    ∀ (fuel : ℕ) (s s' : SimState), runSimAux p o fuel s = some s' →
      s'.prime_count = s.prime_count := by
  intro fuel
  induction fuel with
  | zero =>
    intro s s' h
    unfold runSimAux at h
    split at h
    · exact absurd h (by simp)
    · cases h
      rfl
  | succ n ih =>
    intro s s' h
    unfold runSimAux at h
    split at h
    · cases htick : simTick p (o s.activity_count) s with
      | none => rw [htick] at h; exact absurd h (by simp)
      | some s1 =>
        rw [htick] at h
        have h1 := simTick_prime_no_trigger _ _ _ _ (hno s.activity_count) htick
        rw [ih s1 s' h, h1]
    · cases h
      rfl

theorem runSimAux_prime_tracks_activity (p : SimParams) (o : ℕ → TickDraw)
    (hall : ∀ n, (o n).r ≤ p.prime_chance) :
    ∀ (fuel : ℕ) (s s' : SimState), runSimAux p o fuel s = some s' →
      s'.prime_count + s.activity_count = s'.activity_count + s.prime_count := by
  intro fuel
  induction fuel with
  | zero =>
    intro s s' h
    unfold runSimAux at h
    split at h
    · exact absurd h (by simp)
    · cases h
      omega
  | succ n ih =>
    intro s s' h
    unfold runSimAux at h
    split at h
    · cases htick : simTick p (o s.activity_count) s with
      | none => rw [htick] at h; exact absurd h (by simp)
      | some s1 =>
        rw [htick] at h
        have h1 := simTick_activity _ _ _ _ htick
        have h2 := simTick_prime_trigger _ _ _ _ (hall s.activity_count) htick
        have h3 := ih s1 s' h
        omega
    · cases h
      omega

theorem runSimAux_gearInv (p : SimParams) (o : ℕ → TickDraw)
    (hsc : p.starting_power ≤ p.power_cap) :
    ∀ (fuel : ℕ) (s s' : SimState), runSimAux p o fuel s = some s' →
      GearInv p s → GearInv p s' := by
  intro fuel
  induction fuel with
  | zero =>
    intro s s' h hinv
    unfold runSimAux at h
    split at h
    · exact absurd h (by simp)
    · cases h
      exact hinv
  | succ n ih =>
    intro s s' h hinv
    unfold runSimAux at h
    split at h
    · cases htick : simTick p (o s.activity_count) s with
      | none => rw [htick] at h; exact absurd h (by simp)
      | some s1 =>
        rw [htick] at h
        exact ih s1 s' h (simTick_gearInv _ _ _ _ hsc hinv htick).1
    · cases h
      exact hinv

theorem runSimAux_activity_pos (p : SimParams) (o : ℕ → TickDraw)
    (fuel : ℕ) (s s' : SimState) (hlt : account_power s.gear < p.target_power)
    (h : runSimAux p o fuel s = some s') :
    s.activity_count + 1 ≤ s'.activity_count := by
  cases fuel with
  | zero =>
    unfold runSimAux at h
    rw [if_pos hlt] at h
    exact absurd h (by simp)
  | succ n =>
    unfold runSimAux at h
    rw [if_pos hlt] at h
    cases htick : simTick p (o s.activity_count) s with
    | none => rw [htick] at h; exact absurd h (by simp)
    | some s1 =>
      rw [htick] at h
      have h1 := simTick_activity _ _ _ _ htick
      have h2 := runSimAux_activity_mono p o n s1 s' h
      omega

/-! ### Greedy-draw progress and termination -/

theorem greedy_tick_progress (p : SimParams) (s : SimState)
    (hinv : GearInv p s) (htc : p.target_power ≤ p.power_cap)
    (hlt : account_power s.gear < p.target_power) (pb prb : ℤ)
    (hb : get_power_bumps (account_power s.gear) p.progression_rules = some (pb, prb))
    (hpb : 1 ≤ pb) :
    ∃ s', simTick p (greedyDraw s) s = some s' ∧
      s.gear.sum + 1 ≤ s'.gear.sum ∧
      s'.activity_count = s.activity_count + 1 := by
  obtain ⟨hlen, hbounds⟩ := hinv
  have hne : s.gear ≠ [] := by
    intro hnil
    rw [hnil] at hlen
    simp at hlen
  have hm8 : idxMin s.gear < 8 := by
    have := idxMin_lt_length s.gear hne
    omega
  have hmod : idxMin s.gear % 8 = idxMin s.gear := Nat.mod_eq_of_lt hm8
  have hmlt : idxMin s.gear < s.gear.length := by omega
  have hold_le : ∀ x ∈ s.gear, s.gear.getD (idxMin s.gear) 0 ≤ x :=
    fun x hx => getD_idxMin_le s.gear x hx
  have hap : s.gear.getD (idxMin s.gear) 0 ≤ account_power s.gear :=
    lower_le_account_power _ _ hlen hold_le
  have holdcap : s.gear.getD (idxMin s.gear) 0 < p.power_cap :=
    lt_of_le_of_lt hap (lt_of_lt_of_le hlt htc)
  have hslots : (greedyDraw s).reg_slot.val = idxMin s.gear ∧
      (greedyDraw s).prime_slot.val = idxMin s.gear := by
    constructor <;> simp [greedyDraw, hmod]
  refine ⟨_, simTick_some_of_bumps p (greedyDraw s) s pb prb hb, ?_, ?_⟩
  swap
  · rfl
  · rw [hslots.1, hslots.2]
    by_cases htr : (greedyDraw s).r ≤ p.prime_chance
    · simp only [if_pos htr]
      have hmid_bounds : ∀ x ∈ bump_slot p.power_cap
          (account_power s.gear + prb) (idxMin s.gear) s.gear,
          p.starting_power ≤ x ∧ x ≤ p.power_cap :=
        bump_slot_bounds _ _ _ _ _ hbounds
      have hmidlen : (bump_slot p.power_cap (account_power s.gear + prb)
          (idxMin s.gear) s.gear).length = s.gear.length :=
        bump_slot_length _ _ _ _
      have hmlt1 : idxMin s.gear < (bump_slot p.power_cap
          (account_power s.gear + prb) (idxMin s.gear) s.gear).length := by
        rw [hmidlen]
        exact hmlt
      have hv1_ge : s.gear.getD (idxMin s.gear) 0 ≤
          (bump_slot p.power_cap (account_power s.gear + prb)
            (idxMin s.gear) s.gear).getD (idxMin s.gear) 0 :=
        bump_slot_pointwise _ _ _ _ (fun x hx => (hbounds x hx).2) _
      have hv1_cap : (bump_slot p.power_cap (account_power s.gear + prb)
          (idxMin s.gear) s.gear).getD (idxMin s.gear) 0 ≤ p.power_cap :=
        (hmid_bounds _ (getD_mem _ _ hmlt1)).2
      have hsum1 : (bump_slot p.power_cap (account_power s.gear + prb)
          (idxMin s.gear) s.gear).sum =
          s.gear.sum - s.gear.getD (idxMin s.gear) 0 +
          (bump_slot p.power_cap (account_power s.gear + prb)
            (idxMin s.gear) s.gear).getD (idxMin s.gear) 0 := by
        rw [bump_slot, getD_set_self _ _ _ hmlt, sum_set_eq _ _ _ hmlt]
      rw [bump_slot, sum_set_eq _ _ _ hmlt1, hsum1]
      rcases le_or_lt (s.gear.getD (idxMin s.gear) 0 + 1)
        ((bump_slot p.power_cap (account_power s.gear + prb)
          (idxMin s.gear) s.gear).getD (idxMin s.gear) 0) with hc | hc
      · have : (bump_slot p.power_cap (account_power s.gear + prb)
            (idxMin s.gear) s.gear).getD (idxMin s.gear) 0 ≤
            min (max (account_power s.gear + pb)
              ((bump_slot p.power_cap (account_power s.gear + prb)
                (idxMin s.gear) s.gear).getD (idxMin s.gear) 0)) p.power_cap :=
          le_min (le_max_right _ _) hv1_cap
        omega
      · have hv1_eq : (bump_slot p.power_cap (account_power s.gear + prb)
            (idxMin s.gear) s.gear).getD (idxMin s.gear) 0 =
            s.gear.getD (idxMin s.gear) 0 := by omega
        rw [hv1_eq]
        have : s.gear.getD (idxMin s.gear) 0 <
            min (max (account_power s.gear + pb)
              (s.gear.getD (idxMin s.gear) 0)) p.power_cap :=
          lt_min (lt_of_lt_of_le (by omega) (le_max_left _ _)) holdcap
        omega
    · simp only [if_neg htr]
      rw [bump_slot, sum_set_eq _ _ _ hmlt]
      have : s.gear.getD (idxMin s.gear) 0 <
          min (max (account_power s.gear + pb)
            (s.gear.getD (idxMin s.gear) 0)) p.power_cap :=
        lt_min (lt_of_lt_of_le (by omega) (le_max_left _ _)) holdcap
      omega

theorem gearInv_init (p : SimParams) (hsc : p.starting_power ≤ p.power_cap) :
    GearInv p (initState p) := by
  constructor
  · simp [initState]
  · intro x hx
    rw [initState] at hx
    simp only [List.mem_replicate] at hx
    rw [hx.2]
    exact ⟨le_refl _, hsc⟩

theorem account_power_init (p : SimParams) :
    account_power (initState p).gear = p.starting_power :=
  account_power_replicate p.starting_power

theorem sum_init (p : SimParams) : (initState p).gear.sum = 8 * p.starting_power := by
  rw [initState]
  simp [List.sum_replicate]
  ring

theorem greedyTraj_succ (p : SimParams) (k : ℕ) :
    greedyTraj p (k + 1) =
      if account_power (greedyTraj p k).gear < p.target_power then
        (simTick p (greedyDraw (greedyTraj p k)) (greedyTraj p k)).getD (greedyTraj p k)
      else greedyTraj p k := rfl

theorem runSimAux_greedy_isSome (p : SimParams)
    (htc : p.target_power ≤ p.power_cap) (hsc : p.starting_power ≤ p.power_cap)
    (hrules : ∀ a : ℤ, p.starting_power ≤ a → a < p.target_power →
      ∃ pb prb, get_power_bumps a p.progression_rules = some (pb, prb) ∧ 1 ≤ pb) :
    ∀ (n k : ℕ), GearInv p (greedyTraj p k) → (greedyTraj p k).activity_count = k →
      8 * p.target_power ≤ (greedyTraj p k).gear.sum + n →
      (runSimAux p (greedyOracle p) n (greedyTraj p k)).isSome := by
  intro n
  induction n with
  | zero =>
    intro k hinv hact hsum
    have hge : p.target_power ≤ account_power (greedyTraj p k).gear :=
      target_le_account_power _ _ (by omega)
    unfold runSimAux
    rw [if_neg (not_lt_of_le hge)]
    rfl
  | succ nn ih =>
    intro k hinv hact hsum
    by_cases hlt : account_power (greedyTraj p k).gear < p.target_power
    · have hap_lo : p.starting_power ≤ account_power (greedyTraj p k).gear :=
        lower_le_account_power _ _ hinv.1 (fun x hx => (hinv.2 x hx).1)
      obtain ⟨pb, prb, hb, hpb⟩ := hrules _ hap_lo hlt
      obtain ⟨s', hts, hsum', hact'⟩ :=
        greedy_tick_progress p (greedyTraj p k) hinv htc hlt pb prb hb hpb
      have hinv' : GearInv p s' :=
        (simTick_gearInv p (greedyDraw (greedyTraj p k)) _ _ hsc hinv hts).1
      have htraj : greedyTraj p (k + 1) = s' := by
        rw [greedyTraj_succ, if_pos hlt, hts]
        rfl
      unfold runSimAux
      rw [if_pos hlt]
      have horacle : greedyOracle p (greedyTraj p k).activity_count =
          greedyDraw (greedyTraj p k) := by
        rw [hact]
        rfl
      rw [horacle, hts]
      show (runSimAux p (greedyOracle p) nn s').isSome = true
      rw [← htraj] at hinv' hsum' hact' ⊢
      exact ih (k + 1) hinv' (by omega) (by omega)
    · unfold runSimAux
      rw [if_neg hlt]
      rfl

/-! ### Lookup and batch helper lemmas -/

theorem scan_rules_eq_find (a : ℤ) : ∀ rules : List (ℤ × ℤ × ℤ),
    scan_rules a rules =
      (rules.find? (fun rule => decide (rule.1 ≤ a))).map fun rule => (rule.2.1, rule.2.2)
  | [] => rfl
  | (t, pb, prb) :: rest => by
    by_cases h : t ≤ a
    · rw [scan_rules, if_pos h, List.find?_cons_of_pos _ (by simpa using h)]
      rfl
    · rw [scan_rules, if_neg h, List.find?_cons_of_neg _ (by simpa using h)]
      exact scan_rules_eq_find a rest

theorem run_simulation_elim (p : SimParams) (o : ℕ → TickDraw) (fuel : ℕ)
    (a pc : ℕ) (g : List ℤ) (h : run_simulation p o fuel = some (a, pc, g)) :
    ∃ s', runSimAux p o fuel (initState p) = some s' ∧
      s'.activity_count = a ∧ s'.prime_count = pc ∧ s'.gear = g := by
  unfold run_simulation at h
  cases hr : runSimAux p o fuel (initState p) with
  | none =>
    rw [hr] at h
    simp at h
  | some s' =>
    rw [hr] at h
    simp only [Option.map_some'] at h
    have h' := Option.some_injective _ h
    exact ⟨s', rfl, congrArg (fun x => x.1) h', congrArg (fun x => x.2.1) h',
      congrArg (fun x => x.2.2) h'⟩

theorem run_simulation_prime_le (p : SimParams) (o : ℕ → TickDraw) (fuel : ℕ)
    (a pc : ℕ) (g : List ℤ) (h : run_simulation p o fuel = some (a, pc, g)) :
    pc ≤ a := by
  obtain ⟨s', hr, ha, hp, _⟩ := run_simulation_elim p o fuel a pc g h
  have := runSimAux_prime_le_activity p o fuel _ _ hr (by simp [initState])
  omega

theorem run_simulation_activity_pos (p : SimParams) (o : ℕ → TickDraw) (fuel : ℕ)
    (a pc : ℕ) (g : List ℤ) (hst : p.starting_power < p.target_power)
    (h : run_simulation p o fuel = some (a, pc, g)) : 1 ≤ a := by
  obtain ⟨s', hr, ha, _, _⟩ := run_simulation_elim p o fuel a pc g h
  have hlt : account_power (initState p).gear < p.target_power := by
    rw [account_power_init]
    exact hst
  have := runSimAux_activity_pos p o fuel _ _ hlt hr
  have hz : (initState p).activity_count = 0 := rfl
  omega

theorem run_batch_prime_le (p : SimParams) (oracles : ℕ → ℕ → TickDraw) (fuel : ℕ) :
    ∀ (n i : ℕ) (rs : List (ℕ × ℕ)), run_batch p oracles fuel i n = some rs →
      ∀ pr ∈ rs, pr.2 ≤ pr.1 := by
  intro n
  induction n with
  | zero =>
    intro i rs h pr hpr
    unfold run_batch at h
    cases h
    simp at hpr
  | succ m ih =>
    intro i rs h pr hpr
    unfold run_batch at h
    cases hr : run_simulation p (oracles i) fuel with
    | none =>
      rw [hr] at h
      simp at h
    | some r =>
      rw [hr] at h
      cases hrest : run_batch p oracles fuel (i + 1) m with
      | none =>
        rw [hrest] at h
        simp at h
      | some rest =>
        rw [hrest] at h
        simp only [Option.some_bind, Option.map_some'] at h
        cases h
        rcases List.mem_cons.mp hpr with h | h
        · subst h
          exact run_simulation_prime_le p (oracles i) fuel r.1 r.2.1 r.2.2 (by rw [hr])
        · exact ih (i + 1) rest hrest pr h

theorem sum_map_snd_le_sum_map_fst (rs : List (ℕ × ℕ)) (h : ∀ pr ∈ rs, pr.2 ≤ pr.1) :
    (rs.map fun r => ((r.2 : ℕ) : ℚ)).sum ≤ (rs.map fun r => ((r.1 : ℕ) : ℚ)).sum := by
  induction rs with
  | nil => simp
  | cons x xs ih =>
    simp only [List.map_cons, List.sum_cons]
    have h1 : (x.2 : ℚ) ≤ (x.1 : ℚ) := by
      exact_mod_cast h x (List.mem_cons_self _ _)
    have h2 := ih (fun pr hpr => h pr (List.mem_cons_of_mem _ hpr))
    linarith

theorem sum_map_fst_nonneg (rs : List (ℕ × ℕ)) :
    0 ≤ (rs.map fun r => ((r.1 : ℕ) : ℚ)).sum := by
  apply List.sum_nonneg
  intro x hx
  simp only [List.mem_map] at hx
  obtain ⟨pr, _, hpr⟩ := hx
  rw [← hpr]
  positivity

theorem run_scenario_small_none (scenario_name : String) (p : SimParams)
    (oracles : ℕ → ℕ → TickDraw) (fuel : ℕ) (N : ℕ) (hN : N < 2) :
    run_scenario_analysis N scenario_name p oracles fuel = none := by
  match N, hN with
  | 0, _ => rfl
  | 1, _ =>
    cases hr : run_simulation p (oracles 0) fuel with
    | none =>
      have hb : run_batch p oracles fuel 0 1 = none := by
        unfold run_batch
        rw [hr]
        rfl
      unfold run_scenario_analysis
      rw [hb]
      rfl
    | some r =>
      have hb : run_batch p oracles fuel 0 1 = some [(r.1, r.2.1)] := by
        unfold run_batch
        rw [hr]
        rfl
      unfold run_scenario_analysis
      rw [hb]
      simp [stat_mean, stat_median, stat_stdev_sq]

theorem run_scenario_rate_bounds (N : ℕ) (scenario_name : String) (p : SimParams)
    (oracles : ℕ → ℕ → TickDraw) (fuel : ℕ) (st : ScenarioStats)
    (h : run_scenario_analysis N scenario_name p oracles fuel = some st) :
    0 ≤ st.prime_rate ∧ st.prime_rate ≤ 1 := by
  unfold run_scenario_analysis at h
  cases hb : run_batch p oracles fuel 0 N with
  | none =>
    rw [hb] at h
    simp at h
  | some rs =>
    rw [hb] at h
    simp only [Option.some_bind] at h
    rw [Option.bind_eq_some] at h
    obtain ⟨a_mean, _, h⟩ := h
    rw [Option.bind_eq_some] at h
    obtain ⟨a_median, _, h⟩ := h
    rw [Option.bind_eq_some] at h
    obtain ⟨a_sdsq, _, h⟩ := h
    rw [Option.bind_eq_some] at h
    obtain ⟨a_min, _, h⟩ := h
    rw [Option.bind_eq_some] at h
    obtain ⟨a_max, _, h⟩ := h
    rw [Option.bind_eq_some] at h
    obtain ⟨a_q, _, h⟩ := h
    rw [Option.bind_eq_some] at h
    obtain ⟨p_mean, _, h⟩ := h
    rw [Option.bind_eq_some] at h
    obtain ⟨p_median, _, h⟩ := h
    split at h
    · exact absurd h (by simp)
    · next hsz =>
      have hst := Option.some_injective _ h
      have hnn : 0 ≤ (rs.map fun r => ((r.1 : ℕ) : ℚ)).sum := sum_map_fst_nonneg rs
      have hpos : 0 < (rs.map fun r => ((r.1 : ℕ) : ℚ)).sum :=
        lt_of_le_of_ne hnn (fun hc => hsz hc.symm)
      have hple : (rs.map fun r => ((r.2 : ℕ) : ℚ)).sum ≤
          (rs.map fun r => ((r.1 : ℕ) : ℚ)).sum :=
        sum_map_snd_le_sum_map_fst rs (run_batch_prime_le p oracles fuel N 0 rs hb)
      have hpnn : 0 ≤ (rs.map fun r => ((r.2 : ℕ) : ℚ)).sum := by
        apply List.sum_nonneg
        intro x hx
        simp only [List.mem_map] at hx
        obtain ⟨pr, _, hpr⟩ := hx
        rw [← hpr]
        positivity
      rw [← hst]
      constructor
      · exact div_nonneg hpnn hnn
      · rw [div_le_one hpos]
        exact hple

/-! ### Concrete instances for counterexamples and witnesses -/

/-- The spec's §8 scenario: default rule table, `bonus_chance = 0`,
starting power 400, target 450, cap 550 (valid per the claimed
preconditions). -/
def paramsC3 : SimParams :=
  { power_cap := 550, starting_power := 400, target_power := 450,
    prime_chance := 0, progression_rules := default_rules }

/-- A draw sequence for `paramsC3`: every uniform draw is 1/1 and both slot
draws are 0. (Any sequence works: with `power_bump = 0` at 400+ no update
can change the gear.) -/
def oracleC3 : ℕ → TickDraw := fun _ => ⟨1, 0, 0⟩

/-- The gear state `paramsC3` is stuck at. -/
def gearC3 : List ℤ := List.replicate 8 400

/-- Parameters exercising the `r ≤ prime_chance` comparison with
`prime_chance = 0`. -/
def paramsC5 : SimParams :=
  { power_cap := 550, starting_power := 400, target_power := 401,
    prime_chance := 0, progression_rules := [(0, 8, 8)] }

/-- A draw sequence whose uniform draws are all exactly 0 (a value
`random.random()` can return). -/
def oracleC5 : ℕ → TickDraw := fun _ => ⟨0, 0, 0⟩

/-- Benign valid parameters used by several witnesses. -/
def paramsW : SimParams :=
  { power_cap := 550, starting_power := 400, target_power := 401,
    prime_chance := 0, progression_rules := [(0, 8, 8)] }

/-- Draws with uniform value 1 (never triggers a bonus when the chance
is 0). -/
def oracleW : ℕ → TickDraw := fun _ => ⟨1, 0, 0⟩

/-- Witness parameters with `prime_chance = 1`. -/
def paramsW1 : SimParams :=
  { power_cap := 550, starting_power := 400, target_power := 401,
    prime_chance := 1, progression_rules := [(0, 8, 8)] }

/-- Draws with uniform value 0. -/
def oracleW0 : ℕ → TickDraw := fun _ => ⟨0, 0, 0⟩

theorem simTick_stuckC3 (n : ℕ) (s : SimState) (hg : s.gear = gearC3) :
    simTick paramsC3 (oracleC3 n) s =
      some ⟨s.activity_count + 1, s.prime_count, gearC3⟩ := by
  have h3 : get_power_bumps (account_power gearC3) paramsC3.progression_rules =
      some (0, 3) := by decide
  have h4c : ¬ ((1 : ℚ) ≤ paramsC3.prime_chance) := by decide
  have h4 : ¬ ((oracleC3 n).r ≤ paramsC3.prime_chance) := h4c
  have h5c : bump_slot paramsC3.power_cap (account_power gearC3 + 0)
      ((0 : Fin 8) : ℕ) gearC3 = gearC3 := by decide
  have h5 : bump_slot paramsC3.power_cap (account_power gearC3 + 0)
      (oracleC3 n).reg_slot.val gearC3 = gearC3 := h5c
  have ht := simTick_some_of_bumps paramsC3 (oracleC3 n) s 0 3 (by rw [hg]; exact h3)
  rw [ht, hg]
  simp only [if_neg h4, h5]

theorem runSimAux_stuckC3 : ∀ (fuel : ℕ) (s : SimState), s.gear = gearC3 →
    runSimAux paramsC3 oracleC3 fuel s = none := by
  intro fuel
  induction fuel with
  | zero =>
    intro s hg
    have hc : account_power s.gear < paramsC3.target_power := by
      rw [hg]
      decide
    unfold runSimAux
    rw [if_pos hc]
  | succ m ih =>
    intro s hg
    have hc : account_power s.gear < paramsC3.target_power := by
      rw [hg]
      decide
    unfold runSimAux
    rw [if_pos hc, simTick_stuckC3 s.activity_count s hg]
    exact ih ⟨s.activity_count + 1, s.prime_count, gearC3⟩ rfl

/-! ### Claim theorems -/

/-- C1: in every tick of `run_simulation`, the threshold lookup and both
candidate slot values use the account power as of the start of the tick;
the bonus raise (when triggered) is applied before the unconditional
regular drop, which therefore operates on the already-raised gear; and the
continuation of the loop (guard, next lookup, next bump arithmetic) is
driven by the account power recomputed, once, from the gear after both
updates — as displayed by this one-tick unfolding of the loop. -/
theorem c1_tick_ordering (p : SimParams) (o : ℕ → TickDraw) (fuel : ℕ) (s : SimState)
    (pb prb : ℤ) (hlt : account_power s.gear < p.target_power)
    (hb : get_power_bumps (account_power s.gear) p.progression_rules = some (pb, prb)) :
    runSimAux p o (fuel + 1) s =
      runSimAux p o fuel
        { activity_count := s.activity_count + 1
          prime_count :=
            if (o s.activity_count).r ≤ p.prime_chance then s.prime_count + 1
            else s.prime_count
          gear :=
            bump_slot p.power_cap (account_power s.gear + pb) (o s.activity_count).reg_slot.val
              (if (o s.activity_count).r ≤ p.prime_chance then
                bump_slot p.power_cap (account_power s.gear + prb)
                  (o s.activity_count).prime_slot.val s.gear
              else s.gear) } := by
  have ht := simTick_some_of_bumps p (o s.activity_count) s pb prb hb
  conv_lhs => rw [runSimAux]
  rw [if_pos hlt, ht]

/-- Witness for C1 at concrete valid inputs. -/
theorem c1_tick_ordering_witness :
    account_power (initState paramsW).gear < paramsW.target_power ∧
    get_power_bumps (account_power (initState paramsW).gear) paramsW.progression_rules =
      some (8, 8) ∧
    runSimAux paramsW oracleW 1 (initState paramsW) =
      runSimAux paramsW oracleW 0
        { activity_count := (initState paramsW).activity_count + 1
          prime_count :=
            if (oracleW (initState paramsW).activity_count).r ≤ paramsW.prime_chance then
              (initState paramsW).prime_count + 1
            else (initState paramsW).prime_count
          gear :=
            bump_slot paramsW.power_cap
              (account_power (initState paramsW).gear + 8)
              (oracleW (initState paramsW).activity_count).reg_slot.val
              (if (oracleW (initState paramsW).activity_count).r ≤ paramsW.prime_chance then
                bump_slot paramsW.power_cap
                  (account_power (initState paramsW).gear + 8)
                  (oracleW (initState paramsW).activity_count).prime_slot.val
                  (initState paramsW).gear
              else (initState paramsW).gear) } :=
  ⟨by decide, by decide,
    c1_tick_ordering paramsW oracleW 0 (initState paramsW) 8 8 (by decide) (by decide)⟩

/-- C2: for valid inputs, the gear invariant (8 slots, all within
`[starting_power, power_cap]`) holds at initialization and is preserved by
every tick, and no tick ever lowers a slot (pointwise monotonicity). -/
theorem c2_gear_invariant (p : SimParams) (h1 : 0 < p.starting_power)
    (h2 : p.starting_power < p.target_power) (h3 : p.target_power ≤ p.power_cap) :
    GearInv p (initState p) ∧
    ∀ (d : TickDraw) (s s' : SimState), GearInv p s → simTick p d s = some s' →
      GearInv p s' ∧ ∀ i, s.gear.getD i 0 ≤ s'.gear.getD i 0 := by
  have hsc : p.starting_power ≤ p.power_cap := le_trans (le_of_lt h2) h3
  exact ⟨gearInv_init p hsc,
    fun d s s' hinv ht => simTick_gearInv p d s s' hsc hinv ht⟩

/-- Witness for C2 at concrete valid inputs. -/
theorem c2_gear_invariant_witness :
    (0 < paramsW.starting_power ∧ paramsW.starting_power < paramsW.target_power ∧
      paramsW.target_power ≤ paramsW.power_cap) ∧
    GearInv paramsW (initState paramsW) :=
  ⟨⟨by decide, by decide, by decide⟩,
    (c2_gear_invariant paramsW (by decide) (by decide) (by decide)).1⟩

/-- C3 counterexample: at the (valid, per the claim's own precondition)
input of the spec's §8 scenario — default rule table, bonus chance 0,
starting power 400, target 450, cap 550 — and the constant draw sequence
with uniform draw 1, `run_simulation` terminates for no fuel bound: at
account power 400 the rule table yields `power_bump = 0`, so no update
changes the gear and the loop guard holds forever. This refutes the claim
that the simulation terminates for all valid inputs and all draw
sequences. -/
theorem c3_counterexample :
    (0 < paramsC3.starting_power ∧ paramsC3.starting_power < paramsC3.target_power ∧
      paramsC3.target_power ≤ paramsC3.power_cap ∧ 0 ≤ paramsC3.prime_chance ∧
      paramsC3.prime_chance ≤ 1 ∧ paramsC3.progression_rules ≠ []) ∧
    ¬ ∃ (fuel : ℕ) (result : ℕ × ℕ × List ℤ),
        run_simulation paramsC3 oracleC3 fuel = some result := by
  constructor
  · exact ⟨by decide, by decide, by decide, by decide, by decide, by decide⟩
  · rintro ⟨fuel, result, h⟩
    unfold run_simulation at h
    rw [runSimAux_stuckC3 fuel (initState paramsC3) rfl] at h
    exact absurd h (by simp)

/-- C3 (amended): for all valid inputs and every draw sequence, a
terminating run returns `activity_count ≥ 1`; and whenever the rule table
yields a `power_bump ≥ 1` at every account power between `starting_power`
and `target_power`, there exists a draw sequence and a fuel bound on which
the run terminates. (Termination for *every* draw sequence, as originally
claimed, is refuted by `c3_counterexample`.) -/
theorem c3_amended (p : SimParams) (h1 : 0 < p.starting_power)
    (h2 : p.starting_power < p.target_power) (h3 : p.target_power ≤ p.power_cap) :
    (∀ (o : ℕ → TickDraw) (fuel : ℕ) (a pc : ℕ) (g : List ℤ),
      run_simulation p o fuel = some (a, pc, g) → 1 ≤ a) ∧
    ((∀ a : ℤ, p.starting_power ≤ a → a < p.target_power →
        ∃ pb prb, get_power_bumps a p.progression_rules = some (pb, prb) ∧ 1 ≤ pb) →
      ∃ (o : ℕ → TickDraw) (fuel : ℕ) (r : ℕ × ℕ × List ℤ),
        run_simulation p o fuel = some r) := by
  constructor
  · intro o fuel a pc g h
    exact run_simulation_activity_pos p o fuel a pc g h2 h
  · intro hrules
    have hsc : p.starting_power ≤ p.power_cap := le_trans (le_of_lt h2) h3
    have hnn : ((8 * (p.target_power - p.starting_power)).toNat : ℤ) =
        8 * (p.target_power - p.starting_power) :=
      Int.toNat_of_nonneg (by omega)
    have h0 : greedyTraj p 0 = initState p := rfl
    have hsome := runSimAux_greedy_isSome p h3 hsc hrules
      (8 * (p.target_power - p.starting_power)).toNat 0
      (by rw [h0]; exact gearInv_init p hsc) (by rw [h0]; rfl)
      (by rw [h0, sum_init]; omega)
    rw [h0] at hsome
    cases hr : runSimAux p (greedyOracle p)
        (8 * (p.target_power - p.starting_power)).toNat (initState p) with
    | none =>
      rw [hr] at hsome
      exact absurd hsome (by simp)
    | some s' =>
      refine ⟨greedyOracle p, (8 * (p.target_power - p.starting_power)).toNat,
        (s'.activity_count, s'.prime_count, s'.gear), ?_⟩
      unfold run_simulation
      rw [hr]
      rfl

/-- Witness for the amended C3 at concrete valid inputs whose rule table
gives `power_bump = 8` everywhere. -/
theorem c3_amended_witness :
    (0 < paramsW.starting_power ∧ paramsW.starting_power < paramsW.target_power ∧
      paramsW.target_power ≤ paramsW.power_cap) ∧
    ∃ (o : ℕ → TickDraw) (fuel : ℕ) (r : ℕ × ℕ × List ℤ),
      run_simulation paramsW o fuel = some r := by
  refine ⟨⟨by decide, by decide, by decide⟩, ?_⟩
  apply (c3_amended paramsW (by decide) (by decide) (by decide)).2
  intro a ha1 ha2
  refine ⟨8, 8, ?_, by norm_num⟩
  have h0 : (0 : ℤ) ≤ a := le_trans (by decide : (0 : ℤ) ≤ paramsW.starting_power) ha1
  simp [get_power_bumps, scan_rules, h0]

/-- C4: for a non-empty rule list, `get_power_bumps` returns the bumps of
the first entry whose threshold is ≤ the account power, and the bumps of
the last entry when no entry matches (`lookup_spec` is the spec-side
description of exactly that). -/
theorem c4_lookup_first_match (a : ℤ) (rules : List (ℤ × ℤ × ℤ)) (h : rules ≠ []) :
    get_power_bumps a rules = some (lookup_spec a rules h) := by
  unfold get_power_bumps lookup_spec
  rw [scan_rules_eq_find]
  cases hf : rules.find? (fun rule => decide (rule.1 ≤ a)) with
  | none =>
    rw [List.getLast?_eq_getLast rules h]
    rfl
  | some rule => rfl

/-- Witness for C4 on the default rule table. -/
theorem c4_lookup_first_match_witness :
    default_rules ≠ [] ∧
    get_power_bumps 300 default_rules =
      some (lookup_spec 300 default_rules (by decide)) :=
  ⟨by decide, c4_lookup_first_match 300 default_rules (by decide)⟩

/-- C5 counterexample: the source compares `random.random() <= prime_chance`,
so with `prime_chance = 0` a draw of exactly 0 — a value in `[0,1)` that
`random.random()` can return — still triggers the bonus event: on
`paramsC5` with all-zero draws the run returns `bonus_count = 1 ≠ 0`.
This refutes the claim that `bonus_count = 0` for *every* sequence of
draws from `[0,1)`. -/
theorem c5_counterexample :
    paramsC5.prime_chance = 0 ∧ (oracleC5 0).r = 0 ∧ (0 : ℚ) ≤ (oracleC5 0).r ∧
    (oracleC5 0).r < 1 ∧
    run_simulation paramsC5 oracleC5 2 =
      some (1, 1, [408, 400, 400, 400, 400, 400, 400, 400]) ∧ (1 : ℕ) ≠ 0 :=
  ⟨by decide, by decide, by decide, by decide, by decide, by decide⟩

/-- C5 (amended): with `prime_chance = 0`, the returned `prime_count` is 0
for every draw sequence whose uniform draws are all strictly positive;
a draw of exactly 0 (possible for `random.random()`) triggers the bonus
because the source uses `<=` rather than `<` (see `c5_counterexample`). -/
theorem c5_amended (p : SimParams) (o : ℕ → TickDraw) (fuel : ℕ) (a pc : ℕ)
    (g : List ℤ) (hchance : p.prime_chance = 0) (hpos : ∀ n, 0 < (o n).r)
    (h : run_simulation p o fuel = some (a, pc, g)) : pc = 0 := by
  obtain ⟨s', hr, _, hp, _⟩ := run_simulation_elim p o fuel a pc g h
  have hno : ∀ n, ¬ (o n).r ≤ p.prime_chance := by
    intro n
    rw [hchance]
    exact not_le_of_lt (hpos n)
  have hc := runSimAux_prime_const p o hno fuel _ _ hr
  have h0 : (initState p).prime_count = 0 := rfl
  omega

/-- Witness for the amended C5. -/
theorem c5_amended_witness :
    run_simulation paramsW oracleW 2 =
      some (1, 0, [408, 400, 400, 400, 400, 400, 400, 400]) ∧ (0 : ℕ) = 0 :=
  ⟨by decide,
    c5_amended paramsW oracleW 2 1 0 [408, 400, 400, 400, 400, 400, 400, 400]
      rfl (fun n => by norm_num [oracleW]) (by decide)⟩

/-- C6: with `prime_chance = 1` every tick triggers the bonus event
(each uniform draw lies in `[0,1)`, hence is ≤ 1), so the returned
`prime_count` equals the returned `activity_count`. -/
theorem c6_chance_one (p : SimParams) (o : ℕ → TickDraw) (fuel : ℕ) (a pc : ℕ)
    (g : List ℤ) (hchance : p.prime_chance = 1) (hr : ∀ n, (o n).r < 1)
    (h : run_simulation p o fuel = some (a, pc, g)) : pc = a := by
  obtain ⟨s', hrun, ha, hp, _⟩ := run_simulation_elim p o fuel a pc g h
  have hall : ∀ n, (o n).r ≤ p.prime_chance := by
    intro n
    rw [hchance]
    exact le_of_lt (hr n)
  have ht := runSimAux_prime_tracks_activity p o hall fuel _ _ hrun
  have h0a : (initState p).activity_count = 0 := rfl
  have h0p : (initState p).prime_count = 0 := rfl
  omega

/-- Witness for C6. -/
theorem c6_chance_one_witness :
    run_simulation paramsW1 oracleW0 2 =
      some (1, 1, [408, 400, 400, 400, 400, 400, 400, 400]) ∧ (1 : ℕ) = 1 :=
  ⟨by decide,
    c6_chance_one paramsW1 oracleW0 2 1 1 [408, 400, 400, 400, 400, 400, 400, 400]
      rfl (fun n => by norm_num [oracleW0]) (by decide)⟩

/-- C7: `run_simulation` is deterministic — identical parameters and an
identical (pointwise equal) draw sequence give identical results — and
`get_power_bumps` is a pure function of `(account_power, rules)`. -/
theorem c7_determinism (p : SimParams) (o1 o2 : ℕ → TickDraw) (fuel : ℕ)
    (a : ℤ) (rules : List (ℤ × ℤ × ℤ)) (h : ∀ n, o1 n = o2 n) :
    run_simulation p o1 fuel = run_simulation p o2 fuel ∧
    get_power_bumps a rules = get_power_bumps a rules := by
  have ho : o1 = o2 := funext h
  exact ⟨by rw [ho], rfl⟩

/-- Witness for C7. -/
theorem c7_determinism_witness :
    run_simulation paramsW oracleW 2 = run_simulation paramsW (fun n => oracleW n) 2 ∧
    get_power_bumps 400 default_rules = get_power_bumps 400 default_rules :=
  c7_determinism paramsW oracleW (fun n => oracleW n) 2 400 default_rules (fun n => rfl)

/-- C8: for every `N < 2`, `run_scenario_analysis` signals an error
(`none`, modelling the `StatisticsError` that `statistics.mean` raises for
`N = 0` and `statistics.stdev` raises for `N = 1`) instead of returning a
statistics record. -/
theorem c8_small_N_error (N : ℕ) (hN : N < 2) (scenario_name : String)
    (p : SimParams) (oracles : ℕ → ℕ → TickDraw) (fuel : ℕ) :
    run_scenario_analysis N scenario_name p oracles fuel = none :=
  run_scenario_small_none scenario_name p oracles fuel N hN

/-- Witness for C8. -/
theorem c8_small_N_error_witness :
    1 < 2 ∧
    run_scenario_analysis 1 "witness scenario" paramsW (fun _ => oracleW) 2 = none :=
  ⟨by norm_num,
    c8_small_N_error 1 (by norm_num) "witness scenario" paramsW (fun _ => oracleW) 2⟩

/-- C9: whenever `starting_power < 10`, `starting_power ≥ power_cap`,
`target_power ≤ starting_power`, or `target_power > power_cap` (with
`power_cap` fixed at 550), the script's module-level validation produces
an error message and the whole script aborts with that error — carrying a
message and producing no scenario statistics, i.e. before any simulation
runs. -/
theorem c9_cli_validation (starting_power target_power : ℤ)
    (h : starting_power < 10 ∨ power_cap_config ≤ starting_power ∨
      target_power ≤ starting_power ∨ power_cap_config < target_power)
    (oracles : ℕ → ℕ → ℕ → TickDraw) (fuel : ℕ) :
    ∃ msg, validate_config starting_power target_power = .error msg ∧
      cli_main starting_power target_power oracles fuel = .error msg := by
  unfold cli_main validate_config
  by_cases h1 : starting_power < 10
  · simp only [if_pos h1]
    exact ⟨_, rfl, rfl⟩
  · simp only [if_neg h1]
    by_cases h2 : power_cap_config ≤ starting_power
    · simp only [if_pos h2]
      exact ⟨_, rfl, rfl⟩
    · simp only [if_neg h2]
      by_cases h3 : target_power ≤ starting_power
      · simp only [if_pos h3]
        exact ⟨_, rfl, rfl⟩
      · simp only [if_neg h3]
        by_cases h4 : power_cap_config < target_power
        · simp only [if_pos h4]
          exact ⟨_, rfl, rfl⟩
        · rcases h with h | h | h | h
          · exact absurd h h1
          · exact absurd h h2
          · exact absurd h h3
          · exact absurd h h4

/-- Witness for C9: `starting_power = 5` aborts with a non-empty message
before any simulation. -/
theorem c9_cli_validation_witness :
    ((5 : ℤ) < 10 ∨ power_cap_config ≤ 5 ∨ (100 : ℤ) ≤ 5 ∨ power_cap_config < 100) ∧
    (∃ msg, validate_config 5 100 = .error msg ∧
      cli_main 5 100 (fun _ _ _ => ⟨0, 0, 0⟩) 0 = .error msg) ∧
    validate_config 5 100 = .error "Error: starting_power (5) must be at least 10" ∧
    "Error: starting_power (5) must be at least 10" ≠ "" :=
  ⟨Or.inl (by norm_num),
    c9_cli_validation 5 100 (Or.inl (by norm_num)) (fun _ _ _ => ⟨0, 0, 0⟩) 0,
    by rfl, by decide⟩

/-- C10: every terminating run returns `prime_count ≤ activity_count`
(and trivially `0 ≤ prime_count`), so whenever the analyzer returns a
statistics record its observed bonus rate
`sum(prime_counts) / sum(activity_counts)` lies in `[0, 1]`. -/
theorem c10_rate_bounds (p : SimParams) (o : ℕ → TickDraw) (fuel : ℕ)
    (a pc : ℕ) (g : List ℤ) (h : run_simulation p o fuel = some (a, pc, g)) :
    pc ≤ a ∧
    ∀ (N : ℕ) (scenario_name : String) (oracles : ℕ → ℕ → TickDraw) (fuelN : ℕ)
      (st : ScenarioStats),
      run_scenario_analysis N scenario_name p oracles fuelN = some st →
      0 ≤ st.prime_rate ∧ st.prime_rate ≤ 1 :=
  ⟨run_simulation_prime_le p o fuel a pc g h,
    fun N scenario_name oracles fuelN st hst =>
      run_scenario_rate_bounds N scenario_name p oracles fuelN st hst⟩

/-- Witness for C10. -/
theorem c10_rate_bounds_witness :
    run_simulation paramsW oracleW 3 =
      some (1, 0, [408, 400, 400, 400, 400, 400, 400, 400]) ∧ (0 : ℕ) ≤ 1 := by
  refine ⟨by decide, ?_⟩
  exact (c10_rate_bounds paramsW oracleW 3 1 0
    [408, 400, 400, 400, 400, 400, 400, 400] (by decide)).1
